import Mathlib

/-!
Verification of `ingestion_server/cleanup.py`: a shallow embedding of the
data-cleanup engine (URL scheme repair, tag filtering, per-provider TLS
probing, field-rule dispatch, batch partitioning) together with theorems
checking the natural-language specification against it.

The single side effect the Python code performs during a probe — an HTTP GET
with a 2-second timeout — is modelled by an oracle `Net : String → Option Nat`
mapping the requested URL to `some status` for a response and `none` for any
`RequestException` (timeout included).  Database reads are modelled by passing
the fetched rows in as values; database writes are modelled as emitted
`UpdateStmt` values.
-/

namespace Cleanup

/-- Network oracle: URL fetched ↦ HTTP status, or `none` for an exception. -/
abbrev Net := String → Option Nat

/-- Local copy of the provider → supports-TLS mapping (a Python dict,
modelled as an insertion-ordered association list). -/
abbrev TlsMap := List (String × Bool)

/-- First-match association-list lookup, the semantics of a Python dict read. -/
def lookupA {β : Type} (k : String) : List (String × β) → Option β
  | [] => none
  | (k2, v) :: rest => if k2 = k then some v else lookupA k rest

/-! Part: Python string primitives used by the source -/

/-- Test `leadsWith pat l`: `pat` is a prefix of `l` (char-list level). -/
def leadsWith : List Char → List Char → Bool
  | [], _ => true
  | _ :: _, [] => false
  | a :: as, b :: bs => a == b && leadsWith as bs

/-- Test `occursIn pat l`: `pat` occurs as a contiguous substring of `l`; this is
Python's `pat in l` on strings. -/
def occursIn (pat : List Char) : List Char → Bool
  | [] => leadsWith pat []
  | c :: rest => leadsWith pat (c :: rest) || occursIn pat rest

/-- Python `pat in s` for strings. -/
def strContains (s pat : String) : Bool := occursIn pat.data s.data

/-- Python `url.replace('http://', 'https://')`: replace every non-overlapping
occurrence, scanning left to right.  Specialised to the only pattern the
source uses, `"http://"` (7 characters). -/
def replaceHttp : List Char → List Char
  | [] => []
  | c :: rest =>
    if leadsWith ("http://".data) (c :: rest) then
      "https://".data ++ replaceHttp (rest.drop 6)
    else
      c :: replaceHttp rest
termination_by l => l.length
decreasing_by
  · simp only [List.length_cons, List.length_drop]
    omega
  · simp only [List.length_cons]
    omega

/-- String-level wrapper for `replaceHttp`. -/
def strReplaceHttp (s : String) : String := String.mk (replaceHttp s.data)

/-! Part: `urllib.parse.urlparse` scheme extraction

The source only inspects `urlparse(url).scheme`, so we embed exactly the
scheme-extraction step of CPython's `urlsplit`: the text before the first
colon is the scheme when it is non-empty, starts with an ASCII letter and
consists of scheme characters; it is lower-cased.  Otherwise the scheme is
the empty string. -/

/-- CPython `scheme_chars`: letters, digits, `+`, `-`, `.`. -/
def isSchemeChar (c : Char) : Bool :=
  c.isAlpha || c.isDigit || c == '+' || c == '-' || c == '.'

/-- Split a char list at its first colon: `some (before, after)` when a colon
exists, `none` otherwise. -/
def splitColon : List Char → Option (List Char × List Char)
  | [] => none
  | c :: rest =>
    if c = ':' then some ([], rest)
    else
      match splitColon rest with
      | some (pre, post) => some (c :: pre, post)
      | none => none

/-- The scheme of a URL per CPython `urlsplit`, as a char list. -/
def urlSchemeList (l : List Char) : List Char :=
  match splitColon l with
  | some (c :: cs, _) =>
    if c.isAlpha && cs.all isSchemeChar then (c :: cs).map Char.toLower else []
  | _ => []

/-- Model of `urlparse(url).scheme`. -/
def urlScheme (url : String) : String := String.mk (urlSchemeList url.data)

/-! Part: `TlsTest.test_tls_supported`

The Python function is recursive; the recursion is embedded with explicit
fuel, and `tls_probe_terminates` (claim C10) shows fuel 2 always suffices,
i.e. the source recursion terminates after at most one recursive call. -/

/-- Model of `TlsTest.test_tls_supported`, with fuel bounding the recursion depth.
`none` means the fuel ran out (shown impossible for fuel ≥ 2). -/
def testTlsFuel (net : Net) : Nat → String → Option Bool
  | 0, _ => none
  | fuel + 1, url =>
    -- No protocol provided
    if !(strContains url "https://") && !(strContains url "http://") then
      testTlsFuel net fuel ("http://" ++ url)
    -- HTTP provided, but we want to check if HTTPS is supported as well.
    else if strContains url "http://" then
      match net (strReplaceHttp url) with
      | some code => some (decide (200 ≤ code ∧ code < 400))
      | none => some false
    -- If HTTPS is in the URL already, trust that HTTPS is supported.
    else
      some true

/-- Total form of `TlsTest.test_tls_supported` (fuel 2 suffices). -/
def testTlsB (net : Net) (url : String) : Bool :=
  (testTlsFuel net 2 url).getD false

/-! Part: `CleanupFunctions.cleanup_url` -/

/-- The SQL literal `'https://{url}'` / `'http://{url}'` the source formats. -/
def schemeLiteral (b : Bool) (url : String) : String :=
  if b then "'https://" ++ url ++ "'" else "'http://" ++ url ++ "'"

/-- Model of `CleanupFunctions.cleanup_url`.  Returns the replacement literal (or
`none` for "no change") together with the possibly-extended provider → TLS
mapping (`tls_support[provider] = tls_supported` on the `KeyError` path). -/
def cleanupUrl (net : Net) (url : String) (tls : TlsMap) (provider : String) :
    Option String × TlsMap :=
  if urlScheme url = "" then
    match lookupA provider tls with
    | some b => (some (schemeLiteral b url), tls)
    | none =>
      let b := testTlsB net url
      (some (schemeLiteral b url), tls ++ [(provider, b)])
  else
    (none, tls)

/-! Part: `CleanupFunctions.cleanup_tags` -/

/-- A tag record `{name, accuracy}`; `accuracy` may be absent. -/
structure Tag where
  name : String
  accuracy : Option Rat
  deriving DecidableEq

/-- Python `str.lower` (the tag names involved are ASCII). -/
def strLower (s : String) : String := String.mk (s.data.map Char.toLower)

/-- Constant `TAG_MIN_CONFIDENCE`. -/
def TAG_MIN_CONFIDENCE : Rat := 9 / 10

/-- Constant `TAG_BLACKLIST` (case insensitive; members are already lower case). -/
def TAG_BLACKLIST : List String :=
  ["no person", "squareformat", "uploaded:by=flickrmobile",
   "uploaded:by=instagram", "flickriosapp:filter=flamingo", "cc0", "by",
   "by-nc", "by-nd", "by-sa", "by-nc-nd", "by-nc-sa", "pdm"]

/-- Python `'accuracy' in tag and tag['accuracy'] < TAG_MIN_CONFIDENCE`. -/
def belowThreshold (t : Tag) : Bool :=
  match t.accuracy with
  | some a => decide (a < TAG_MIN_CONFIDENCE)
  | none => false

/-- Flag `should_filter` for one tag: blacklisted name (lower-cased) or
low confidence. -/
def shouldFilterTag (t : Tag) : Bool :=
  TAG_BLACKLIST.contains (strLower t.name) || belowThreshold t

/-- Model of `CleanupFunctions.cleanup_tags`.  The input is `none` for Python `None`;
the loop appending every non-filtered tag is `List.filter`, and
`update_required` is true exactly when that output is non-empty. -/
def cleanupTags : Option (List Tag) → Option (List Tag)
  | none => none
  | some tags =>
    if tags.isEmpty then none
    else
      let out := tags.filter (fun t => !shouldFilterTag t)
      if out.isEmpty then none else some out

/-! Part: `_cleanup_config` and field-rule dispatch

The source dispatches by function reference (`cleaning_func ==
CleanupFunctions.cleanup_url`); the closed set of cleaning functions is the
enumeration `CleanF`. -/

/-- The cleaning functions appearing in `_cleanup_config`. -/
inductive CleanF
  | urlF
  | tagsF
  deriving DecidableEq

/-- Field map `providers_config[p]['fields']` for one provider: field name ↦ cleaning
function (an insertion-ordered dict). -/
abbrev FieldMap := List (String × CleanF)

/-- Table `_cleanup_config['tables'][table]['providers']`: provider (or the
wildcard `'*'`) ↦ its field map. -/
abbrev ProvidersConfig := List (String × FieldMap)

/-- Value of `_cleanup_config['tables']['image']['providers']`. -/
def imageProvidersConfig : ProvidersConfig :=
  [("*",
    [("tags", .tagsF), ("url", .urlF), ("creator_url", .urlF),
     ("foreign_landing_url", .urlF), ("thumbnail", .urlF)])]

/-- Python `{**g, **p}`: `g`'s entries with values overridden by `p` on key
collision, followed by `p`'s entries with keys new to `g`. -/
def mergeDicts (g p : FieldMap) : FieldMap :=
  (g.map fun kv =>
    match lookupA kv.1 p with
    | some v => (kv.1, v)
    | none => kv) ++
  p.filter fun kv => (lookupA kv.1 g).isNone

/-- The `fields_to_update` table computed per row in `_clean_data_worker`:
merge of the wildcard rules with the provider-specific rules when the
provider has an entry, else exactly the wildcard rules. -/
def fieldsToUpdate (cfg : ProvidersConfig) (provider : String) : FieldMap :=
  let globalFieldToFunc := (lookupA "*" cfg).getD []
  match lookupA provider cfg with
  | some providerFieldToFunc => mergeDicts globalFieldToFunc providerFieldToFunc
  | none => globalFieldToFunc

/-! Part: `_clean_data_worker` -/

/-- A column value of a staged row: SQL NULL, a URL-typed string, or a tag
collection. -/
inductive FieldVal
  | vnull
  | vstr (s : String)
  | vtags (ts : List Tag)
  deriving DecidableEq

/-- Python truthiness of a column value (`if not dirty_value: continue`). -/
def truthy : FieldVal → Bool
  | .vnull => false
  | .vstr s => !s.isEmpty
  | .vtags ts => !ts.isEmpty

/-- One staged row as fetched by the cleanup SELECT: id, provider and the
cleanable columns. -/
structure Row where
  id : Nat
  provider : String
  fields : List (String × FieldVal)
  deriving DecidableEq

/-- Read of `row[update_field]`; a column missing from the row reads as NULL. -/
def rowGet (row : Row) (f : String) : FieldVal :=
  (lookupA f row.fields).getD .vnull

/-- A serialized replacement value produced by a cleaning function: the SQL
string literal from `cleanup_url`, or the JSON tag collection from
`cleanup_tags`. -/
inductive Frag
  | fstr (s : String)
  | fjson (ts : List Tag)
  deriving DecidableEq

/-- Dispatch of one cleaning function on one column value, as in the worker
loop: `cleanup_url` gets the url/tls/provider keyword arguments and may
extend the worker's TLS map; `cleanup_tags` gets the tag collection.  The
catch-all arm is unreachable for rows matching the staging schema (each
registered field holds the value kind its function expects). -/
def cleanApply (net : Net) (fn : CleanF) (v : FieldVal) (tls : TlsMap)
    (provider : String) : Option Frag × TlsMap :=
  match fn, v with
  | .urlF, .vstr s =>
    let r := cleanupUrl net s tls provider
    (r.1.map Frag.fstr, r.2)
  | .tagsF, .vtags ts => ((cleanupTags (some ts)).map Frag.fjson, tls)
  | _, _ => (none, tls)

/-- The `cleaned_data` accumulation of the worker's inner loop over
`fields_to_update`: skip falsy values, run the cleaning function, record the
replacement when one is produced; the TLS map is threaded through the
`cleanup_url` calls. -/
def cleanFields (net : Net) (row : Row) :
    List (String × CleanF) → TlsMap → List (String × Frag) × TlsMap
  | [], tls => ([], tls)
  | (f, fn) :: rest, tls =>
    if truthy (rowGet row f) = false then
      cleanFields net row rest tls
    else
      let r := cleanApply net fn (rowGet row f) tls row.provider
      let t := cleanFields net row rest r.2
      match r.1 with
      | some frag => ((f, frag) :: t.1, t.2)
      | none => t

/-- The UPDATE statement the worker executes for one row: target table, the
row's identifier, and one `field = cleaned` assignment per cleaned field. -/
structure UpdateStmt where
  table : String
  rowId : Nat
  sets : List (String × Frag)
  deriving DecidableEq

/-- Processing of one row by `_clean_data_worker`: build `cleaned_data`,
then execute one UPDATE when at least one field expression exists, none
otherwise. -/
def rowUpdate (net : Net) (cfg : ProvidersConfig) (tls : TlsMap)
    (tempTable : String) (row : Row) : Option UpdateStmt × TlsMap :=
  let ftu := fieldsToUpdate cfg row.provider
  let r := cleanFields net row ftu tls
  if r.1.length > 0 then (some ⟨tempTable, row.id, r.1⟩, r.2)
  else (none, r.2)

/-- Model of `_clean_data_worker` over its whole row slice: the list of executed
UPDATE statements, with the worker-local TLS map threaded across rows. -/
def cleanDataWorker (net : Net) (cfg : ProvidersConfig) (tempTable : String) :
    List Row → TlsMap → List UpdateStmt × TlsMap
  | [], tls => ([], tls)
  | row :: rest, tls =>
    let r := rowUpdate net cfg tls tempTable row
    let t := cleanDataWorker net cfg tempTable rest r.2
    match r.1 with
    | some stmt => (stmt :: t.1, t.2)
    | none => t

/-! Part: `TlsTest.test_provider_tls_images_available` (per-provider tally) -/

/-- The per-provider vote tally over the sampled image URLs:
`(http_score, https_score)`. -/
def tallyVotes (net : Net) : List String → Nat × Nat
  | [] => (0, 0)
  | thumb :: rest =>
    let t := tallyVotes net rest
    if testTlsB net thumb then (t.1, t.2 + 1) else (t.1 + 1, t.2)

/-- The provider's recorded TLS decision:
`https_score >= http_score`. -/
def providerTlsSupported (net : Net) (imgs : List String) : Bool :=
  if (tallyVotes net imgs).2 ≥ (tallyVotes net imgs).1 then true else false

/-! Part: Batch partitioning in `clean_image_data` -/

/-- Python `batch[s:e]` for the index values the partition loop produces
(`s ≥ 0`, `e ≥ 0`). -/
def pySlice {α : Type} (batch : List α) (s e : Int) : List α :=
  (batch.take e.toNat).drop s.toNat

/-- The partition loop `for n in range(1, num_workers + 1)` with
`start = last_end + 1`, `end = job_size * n`: iterations remaining, current
`n`, current `last_end`. -/
def divideGo {α : Type} (batch : List α) (jobSize : Nat) :
    Nat → Int → Int → List (List α)
  | 0, _, _ => []
  | iters + 1, n, lastEnd =>
    pySlice batch (lastEnd + 1) (jobSize * n) ::
      divideGo batch jobSize iters (n + 1) (jobSize * n)

/-- The per-batch job division of `clean_image_data`:
`job_size = int(len(batch) / num_workers)`, `last_end = -1`, then the
partition loop. -/
def divideJobs {α : Type} (batch : List α) (numWorkers : Nat) : List (List α) :=
  divideGo batch (batch.length / numWorkers) numWorkers 1 (-1)

end Cleanup

namespace Cleanup

example : urlScheme "example.com" = "" := by decide

example : urlScheme "https://a.b/c" = "https" := by decide

example : urlScheme "localhost:8080" = "localhost" := by decide

example : testTlsB (fun _ => none) "example.com" = false := by decide

example : testTlsB (fun _ => some 301) "http://x.org" = true := by decide

example : testTlsB (fun _ => none) "https://x.org" = true := by decide

example :
    cleanupTags (some [⟨"cc0", none⟩, ⟨"sunset", none⟩]) =
      some [⟨"sunset", none⟩] := by decide

example : cleanupTags (some [⟨"cc0", none⟩]) = none := by decide

example :
    cleanupUrl (fun _ => none) "www.example.com/x.jpg" [("flickr", true)]
      "flickr" =
    (some "'https://www.example.com/x.jpg'", [("flickr", true)]) := by decide

example : divideJobs [0, 1, 2, 3] 2 = [[0, 1], [3]] := by decide

example : divideJobs [0, 1, 2, 3, 4] 1 = [[0, 1, 2, 3, 4]] := by decide

example : divideJobs [0, 1, 2] 4 = [[], [], [], []] := by decide

example :
    tallyVotes (fun _ => none) ["http://a", "https://b", "http://c"] =
      (2, 1) := by decide

example :
    providerTlsSupported (fun _ => none) ["https://a", "http://b"] = true := by
  decide

example :
    fieldsToUpdate imageProvidersConfig "flickr" =
      [("tags", .tagsF), ("url", .urlF), ("creator_url", .urlF),
       ("foreign_landing_url", .urlF), ("thumbnail", .urlF)] := by decide

/-! Part: Helper lemmas: substring markers and probe fuel -/

theorem leadsWith_self_append (p l : List Char) : leadsWith p (p ++ l) = true := by
  induction p with
  | nil => simp [leadsWith]
  | cons a as ih => simp [leadsWith, ih]

theorem occursIn_self_append (pat l : List Char) (hp : pat ≠ []) :
    occursIn pat (pat ++ l) = true := by
  cases pat with
  | nil => exact absurd rfl hp
  | cons c cs =>
    simp only [List.cons_append, occursIn, Bool.or_eq_true]
    exact Or.inl (leadsWith_self_append (c :: cs) l)

theorem strData_append (s t : String) : (s ++ t).data = s.data ++ t.data := rfl

theorem strContains_http_prepend (url : String) :
    strContains ("http://" ++ url) "http://" = true := by
  unfold strContains
  rw [strData_append]
  exact occursIn_self_append _ _ (by decide)

/-- When a scheme marker is present, `testTlsFuel` takes a non-recursive
branch, so its value is the same at every positive fuel. -/
theorem testTlsFuel_marker (net : Net) (url : String)
    (h : (strContains url "https://" || strContains url "http://") = true)
    (f1 f2 : Nat) :
    testTlsFuel net (f1 + 1) url = testTlsFuel net (f2 + 1) url := by
  have hcond : (!strContains url "https://" && !strContains url "http://") = false := by
    rcases Bool.or_eq_true_iff.mp h with h1 | h1 <;> simp [h1]
  simp only [testTlsFuel, hcond, Bool.false_eq_true, if_false]

/-- Unfolding of the total probe when the URL holds the unencrypted marker:
GET the all-occurrences `https` rewrite; a `[200, 400)` status is a positive
answer, any other status or an exception a negative one. -/
theorem testTlsB_http (net : Net) (url : String)
    (h : strContains url "http://" = true) :
    testTlsB net url =
      match net (strReplaceHttp url) with
      | some code => decide (200 ≤ code ∧ code < 400)
      | none => false := by
  unfold testTlsB
  rcases hnet : net (strReplaceHttp url) with _ | code <;>
    simp [testTlsFuel, h, hnet]

/-- Unfolding of the total probe when only the encrypted marker is present:
trusted, no request issued. -/
theorem testTlsB_https (net : Net) (url : String)
    (h1 : strContains url "https://" = true)
    (h2 : strContains url "http://" = false) :
    testTlsB net url = true := by
  unfold testTlsB
  simp [testTlsFuel, h1, h2]

/-- Unfolding of the total probe when no marker is present: prepend the
unencrypted scheme and recurse once. -/
theorem testTlsB_noscheme (net : Net) (url : String)
    (h1 : strContains url "https://" = false)
    (h2 : strContains url "http://" = false) :
    testTlsB net url = testTlsB net ("http://" ++ url) := by
  unfold testTlsB
  have hstep : testTlsFuel net 2 url = testTlsFuel net 1 ("http://" ++ url) := by
    simp [testTlsFuel, h1, h2]
  rw [hstep]
  have hmarker :
      (strContains ("http://" ++ url) "https://" ||
        strContains ("http://" ++ url) "http://") = true := by
    simp [strContains_http_prepend]
  rw [testTlsFuel_marker net _ hmarker 0 1]

/-- When a scheme marker is present, positive fuel yields an answer. -/
theorem testTlsFuel_isSome_marker (net : Net) (url : String)
    (h : (strContains url "https://" || strContains url "http://") = true)
    (f : Nat) : (testTlsFuel net (f + 1) url).isSome = true := by
  have hcond : (!strContains url "https://" && !strContains url "http://") = false := by
    rcases Bool.or_eq_true_iff.mp h with h1 | h1 <;> simp [h1]
  simp only [testTlsFuel, hcond, Bool.false_eq_true, if_false]
  by_cases h2 : strContains url "http://" = true
  · simp only [h2, if_true]
    cases net (strReplaceHttp url) <;> rfl
  · simp [h2]

/-- C10: `test_tls_supported` terminates on every input string: the
recursive call happens at most once (it only fires when the URL holds
neither scheme marker, and the string it recurses on — the input with the
unencrypted scheme prepended — holds the marker and so takes a
non-recursive branch): recursion depth 2 always produces an answer, and
adding fuel beyond 2 never changes the result. -/
theorem claimC10_probe_terminates (net : Net) (url : String) (k : Nat) :
    (testTlsFuel net 2 url).isSome = true ∧
    testTlsFuel net (k + 2) url = testTlsFuel net 2 url := by
  by_cases hm : (strContains url "https://" || strContains url "http://") = true
  · exact ⟨testTlsFuel_isSome_marker net url hm 1,
      testTlsFuel_marker net url hm (k + 1) 1⟩
  · simp only [Bool.or_eq_true, not_or, Bool.not_eq_true] at hm
    obtain ⟨h1, h2⟩ := hm
    have hm2 :
        (strContains ("http://" ++ url) "https://" ||
          strContains ("http://" ++ url) "http://") = true := by
      simp [strContains_http_prepend]
    have hb : testTlsFuel net 2 url = testTlsFuel net 1 ("http://" ++ url) := by
      simp [testTlsFuel, h1, h2]
    constructor
    · rw [hb]
      exact testTlsFuel_isSome_marker net _ hm2 0
    · have ha : testTlsFuel net (k + 1 + 1) url =
          testTlsFuel net (k + 1) ("http://" ++ url) := by
        simp [testTlsFuel, h1, h2]
      calc testTlsFuel net (k + 2) url
          = testTlsFuel net (k + 1) ("http://" ++ url) := ha
        _ = testTlsFuel net 1 ("http://" ++ url) :=
            testTlsFuel_marker net _ hm2 k 0
        _ = testTlsFuel net 2 url := hb.symm

/-- C5: the recursive protocol probe: a URL with neither scheme marker gets
the unencrypted scheme prepended and is re-probed; a URL holding the
unencrypted marker is answered by a GET to its encrypted rewrite, true
exactly for a status in `[200, 400)` and false for any exception or other
status; a URL already holding (only) the encrypted marker is trusted and
answered true without any request. -/
theorem claimC5_probe_semantics (net : Net) (url : String) :
    (strContains url "https://" = false → strContains url "http://" = false →
      testTlsB net url = testTlsB net ("http://" ++ url)) ∧
    (strContains url "http://" = true →
      (∀ code, net (strReplaceHttp url) = some code →
        (testTlsB net url = true ↔ 200 ≤ code ∧ code < 400)) ∧
      (net (strReplaceHttp url) = none → testTlsB net url = false)) ∧
    (strContains url "https://" = true → strContains url "http://" = false →
      testTlsB net url = true) := by
  refine ⟨fun h1 h2 => testTlsB_noscheme net url h1 h2, fun h => ⟨?_, ?_⟩,
    fun h1 h2 => testTlsB_https net url h1 h2⟩
  · intro code hc
    rw [testTlsB_http net url h, hc]
    simp
  · intro hn
    rw [testTlsB_http net url h, hn]

/-- C5 witness: a URL holding the unencrypted marker whose probe answers
status 500 is a negative vote. -/
theorem claimC5_probe_semantics_witness :
    strContains "http://x" "http://" = true ∧
    testTlsB (fun _ => some 500) "http://x" = false := by
  refine ⟨by decide, ?_⟩
  have hiff := ((claimC5_probe_semantics (fun _ => some 500) "http://x").2.1
    (by decide)).1 500 rfl
  cases hb : testTlsB (fun _ => some 500) "http://x"
  · rfl
  · exact absurd (hiff.mp hb) (by omega)

/-- C1: the claim says the partition step splits each batch into slices
whose union is the whole batch, no row dropped; the code's index
arithmetic (`start = last_end + 1` against Python's exclusive slice end)
drops the row at each slice boundary: for a batch of 4 rows and 2 workers
it produces `[[0, 1], [3]]` and row `2` reaches no worker. -/
theorem claimC1_partition_drops_row :
    divideJobs [0, 1, 2, 3] 2 = [[0, 1], [3]] ∧
    (2 : Nat) ∈ [0, 1, 2, 3] ∧
    ∀ job ∈ divideJobs [0, 1, 2, 3] 2, (2 : Nat) ∉ job := by decide

/-! Part: Tag cleanup (claims C2 and C7) -/

/-- The loop body of `cleanup_tags` retains exactly the non-filtered tags in
input order: whenever the function reports a replacement, that replacement is
the filtered input. -/
theorem cleanupTags_eq_filter (ts out : List Tag)
    (h : cleanupTags (some ts) = some out) :
    out = ts.filter fun t => !shouldFilterTag t := by
  simp only [cleanupTags] at h
  split_ifs at h with h1 h2
  exact (Option.some.injEq _ _ ▸ h).symm

/-- C2: `cleanup_tags` removes exactly the tags whose lower-cased name is
blacklisted or whose accuracy is present and below 0.90: every such tag is
absent from a produced replacement collection, no new tag is introduced, the
replacement is a sublist of the input (subset preserving relative order),
and every non-filtered tag is retained. -/
theorem claimC2_tags_filter (ts out : List Tag)
    (h : cleanupTags (some ts) = some out) :
    List.Sublist out ts ∧
    (∀ t ∈ out, shouldFilterTag t = false) ∧
    (∀ t ∈ ts, shouldFilterTag t = false → t ∈ out) := by
  have hout := cleanupTags_eq_filter ts out h
  subst hout
  refine ⟨List.filter_sublist ts, fun t ht => ?_, fun t ht hf => ?_⟩
  · have := (List.mem_filter.mp ht).2
    simpa using this
  · exact List.mem_filter.mpr ⟨ht, by simp [hf]⟩

/-- C2 witness: a blacklisted tag (case-insensitively) is removed, the rest
is kept in order. -/
theorem claimC2_tags_filter_witness :
    cleanupTags (some [⟨"CC0", none⟩, ⟨"sunset", none⟩]) =
      some [⟨"sunset", none⟩] ∧
    (List.Sublist [(⟨"sunset", none⟩ : Tag)] [⟨"CC0", none⟩, ⟨"sunset", none⟩] ∧
     (∀ t ∈ [(⟨"sunset", none⟩ : Tag)], shouldFilterTag t = false) ∧
     (∀ t ∈ [(⟨"CC0", none⟩ : Tag), ⟨"sunset", none⟩],
        shouldFilterTag t = false → t ∈ [(⟨"sunset", none⟩ : Tag)])) :=
  ⟨by decide, claimC2_tags_filter _ _ (by decide)⟩

/-- C7: `cleanup_tags` signals "no change" exactly when no tag survives the
filter (in particular for an empty or absent input), and a produced
replacement collection is never empty — a record whose every tag is filtered
out is never updated to an empty tag set. -/
theorem claimC7_tags_never_emptied (tags? : Option (List Tag)) :
    (cleanupTags tags? = none ↔
      ∀ ts, tags? = some ts → ts.filter (fun t => !shouldFilterTag t) = []) ∧
    ∀ out, cleanupTags tags? = some out → out ≠ [] := by
  cases tags? with
  | none => simp [cleanupTags]
  | some ts =>
    constructor
    · constructor
      · intro hnone ts2 hts2
        obtain rfl : ts = ts2 := by injection hts2
        simp only [cleanupTags] at hnone
        split_ifs at hnone with h1 h2
        · obtain rfl : ts = [] := List.isEmpty_iff.mp h1
          rfl
        · exact List.isEmpty_iff.mp h2
      · intro hall
        have hf := hall ts rfl
        simp [cleanupTags, hf]
    · intro out hout
      have heq := cleanupTags_eq_filter ts out hout
      subst heq
      intro hnil
      have hnone : cleanupTags (some ts) = none := by
        simp [cleanupTags, hnil]
      rw [hnone] at hout
      exact Option.noConfusion hout

/-- C7 witness: a collection whose every tag is filtered yields "no
change". -/
theorem claimC7_tags_never_emptied_witness :
    cleanupTags (some [⟨"cc0", none⟩, ⟨"by", none⟩]) = none :=
  (claimC7_tags_never_emptied (some [⟨"cc0", none⟩, ⟨"by", none⟩])).1.mpr
    (by
      intro ts hts
      obtain rfl : [(⟨"cc0", none⟩ : Tag), ⟨"by", none⟩] = ts := by
        injection hts
      decide)

/-! Part: URL cleanup (claims C3 and C4) -/

theorem urlScheme_https_prepend (url : String) :
    urlScheme ("https://" ++ url) = "https" := rfl

theorem urlScheme_http_prepend (url : String) :
    urlScheme ("http://" ++ url) = "http" := rfl

theorem lookupA_append_single {β : Type} (k : String) (l : List (String × β))
    (v : β) (h : lookupA k l = none) : lookupA k (l ++ [(k, v)]) = some v := by
  induction l with
  | nil => simp [lookupA]
  | cons hd rest ih =>
    obtain ⟨k2, v2⟩ := hd
    by_cases hk : k2 = k
    · simp [lookupA, hk] at h
    · simp only [lookupA, hk, if_false, List.cons_append] at h ⊢
      exact ih h

/-- C3: on a scheme-less URL, `cleanup_url` produces a scheme-qualified
literal whose scheme is exactly the provider's TLS decision; a provider
already in the mapping is read from it, an absent provider is resolved by a
single-URL probe whose result is inserted into the local copy of the mapping
(so the returned mapping always answers for the provider with the decision
that was used). -/
theorem claimC3_url_scheme_added (net : Net) (url provider : String)
    (tls : TlsMap) (h : urlScheme url = "") :
    ∃ b : Bool,
      (cleanupUrl net url tls provider).1 = some (schemeLiteral b url) ∧
      lookupA provider (cleanupUrl net url tls provider).2 = some b ∧
      ((lookupA provider tls = some b ∧
        (cleanupUrl net url tls provider).2 = tls) ∨
       (lookupA provider tls = none ∧ b = testTlsB net url ∧
        (cleanupUrl net url tls provider).2 = tls ++ [(provider, b)])) := by
  rcases hl : lookupA provider tls with _ | b
  · refine ⟨testTlsB net url, ?_, ?_, Or.inr ⟨rfl, rfl, ?_⟩⟩
    · simp [cleanupUrl, h, hl]
    · simp only [cleanupUrl, h, hl, if_pos]
      exact lookupA_append_single provider tls _ hl
    · simp [cleanupUrl, h, hl]
  · exact ⟨b, by simp [cleanupUrl, h, hl], by simp [cleanupUrl, h, hl],
      Or.inl ⟨rfl, by simp [cleanupUrl, h, hl]⟩⟩

/-- C3 witness: a scheme-less URL from a provider absent from the mapping is
probed (here every GET fails, so the decision is "no TLS") and the decision
is recorded in the local mapping. -/
theorem claimC3_url_scheme_added_witness :
    urlScheme "example.com" = "" ∧
    ∃ b : Bool,
      (cleanupUrl (fun _ => none) "example.com" [] "p").1 =
        some (schemeLiteral b "example.com") ∧
      lookupA "p" (cleanupUrl (fun _ => none) "example.com" [] "p").2 =
        some b ∧
      ((lookupA "p" ([] : TlsMap) = some b ∧
        (cleanupUrl (fun _ => none) "example.com" [] "p").2 = []) ∨
       (lookupA "p" ([] : TlsMap) = none ∧
        b = testTlsB (fun _ => none) "example.com" ∧
        (cleanupUrl (fun _ => none) "example.com" [] "p").2 =
          [] ++ [("p", b)])) :=
  ⟨by decide, claimC3_url_scheme_added (fun _ => none) "example.com" "p" []
    (by decide)⟩

/-- C4: `cleanup_url` returns "no change" (and leaves the TLS mapping
untouched) on every URL that already specifies a scheme, whatever the
provider's TLS decision; and every replacement it ever produces is a quoted
literal whose quoted content already specifies a scheme, so re-cleaning the
stored value is "no change" (idempotence on its own output). -/
theorem claimC4_url_schemed_unchanged (net : Net) (url provider : String)
    (tls : TlsMap) :
    (urlScheme url ≠ "" → cleanupUrl net url tls provider = (none, tls)) ∧
    (∀ out, (cleanupUrl net url tls provider).1 = some out →
      ∃ w, out = "'" ++ w ++ "'" ∧
        ∀ (net2 : Net) (tls2 : TlsMap) (p2 : String),
          cleanupUrl net2 w tls2 p2 = (none, tls2)) := by
  constructor
  · intro h
    simp [cleanupUrl, h]
  · intro out hout
    by_cases h : urlScheme url = ""
    case neg => simp [cleanupUrl, h] at hout
    case pos =>
      have hb : ∃ b, out = schemeLiteral b url := by
        rcases hl : lookupA provider tls with _ | b
        · refine ⟨testTlsB net url, ?_⟩
          simp [cleanupUrl, h, hl] at hout
          exact hout.symm
        · refine ⟨b, ?_⟩
          simp [cleanupUrl, h, hl] at hout
          exact hout.symm
      obtain ⟨b, rfl⟩ := hb
      cases b
      · refine ⟨"http://" ++ url, rfl, fun net2 tls2 p2 => ?_⟩
        have hs : urlScheme ("http://" ++ url) ≠ "" := by
          rw [urlScheme_http_prepend]
          decide
        simp [cleanupUrl, hs]
      · refine ⟨"https://" ++ url, rfl, fun net2 tls2 p2 => ?_⟩
        have hs : urlScheme ("https://" ++ url) ≠ "" := by
          rw [urlScheme_https_prepend]
          decide
        simp [cleanupUrl, hs]

/-- C4 witness: a URL with an explicit scheme is left unchanged. -/
theorem claimC4_url_schemed_unchanged_witness :
    urlScheme "https://a" ≠ "" ∧
    cleanupUrl (fun _ => none) "https://a" [("p", false)] "p" =
      (none, [("p", false)]) :=
  ⟨by decide,
    (claimC4_url_schemed_unchanged (fun _ => none) "https://a" "p"
      [("p", false)]).1 (by decide)⟩

/-! Part: Per-provider vote tally (claim C6) -/

theorem tallyVotes_sum (net : Net) (imgs : List String) :
    (tallyVotes net imgs).1 + (tallyVotes net imgs).2 = imgs.length := by
  induction imgs with
  | nil => rfl
  | cons u rest ih =>
    simp only [tallyVotes]
    by_cases h : testTlsB net u = true <;> simp [h, List.length_cons] <;> omega

/-- C6: the provider is marked as supporting encrypted transport if and only
if the encrypted votes are at least the unencrypted votes (ties favor
encrypted); every sampled URL contributes exactly one vote (so a failed
probe never aborts the tally), and a probe whose GET fails contributes a
negative vote. -/
theorem claimC6_vote_tally (net : Net) (imgs : List String) :
    (providerTlsSupported net imgs = true ↔
      (tallyVotes net imgs).1 ≤ (tallyVotes net imgs).2) ∧
    (tallyVotes net imgs).1 + (tallyVotes net imgs).2 = imgs.length ∧
    ∀ u, strContains u "http://" = true →
      net (strReplaceHttp u) = none → testTlsB net u = false := by
  refine ⟨⟨?_, ?_⟩, tallyVotes_sum net imgs, fun u hu hn => ?_⟩
  · intro ht
    unfold providerTlsSupported at ht
    split_ifs at ht with hge
    exact hge
  · intro hle
    unfold providerTlsSupported
    rw [if_pos hle]
  · rw [testTlsB_http net u hu, hn]

/-- C6 witness: a one-one tie is decided in favor of encrypted transport. -/
theorem claimC6_vote_tally_witness :
    (tallyVotes (fun _ => none) ["http://a", "https://b"]).1 ≤
      (tallyVotes (fun _ => none) ["http://a", "https://b"]).2 ∧
    providerTlsSupported (fun _ => none) ["http://a", "https://b"] = true :=
  ⟨by decide,
    (claimC6_vote_tally (fun _ => none) ["http://a", "https://b"]).1.mpr
      (by decide)⟩

/-! Part: Field-rule merge (claim C8) -/

theorem lookupA_append {β : Type} (k : String) (l1 l2 : List (String × β)) :
    lookupA k (l1 ++ l2) =
      match lookupA k l1 with
      | some v => some v
      | none => lookupA k l2 := by
  induction l1 with
  | nil => simp [lookupA]
  | cons hd rest ih =>
    obtain ⟨k2, v2⟩ := hd
    by_cases hk : k2 = k <;> simp [lookupA, hk, ih]

theorem lookupA_map_override (g p : FieldMap) (f : String) :
    lookupA f (g.map fun kv =>
      match lookupA kv.1 p with
      | some v => (kv.1, v)
      | none => kv) =
      match lookupA f g with
      | some w =>
        match lookupA f p with
        | some v => some v
        | none => some w
      | none => none := by
  induction g with
  | nil => simp [lookupA]
  | cons hd rest ih =>
    obtain ⟨k2, v2⟩ := hd
    by_cases hk : k2 = f
    · subst hk
      cases hp : lookupA k2 p <;> simp [lookupA, hp]
    · cases hp : lookupA k2 p <;> simp [lookupA, hk, hp, ih]

theorem lookupA_filter_new (g p : FieldMap) (f : String)
    (hg : lookupA f g = none) :
    lookupA f (p.filter fun kv => (lookupA kv.1 g).isNone) = lookupA f p := by
  induction p with
  | nil => simp
  | cons hd rest ih =>
    obtain ⟨k2, v2⟩ := hd
    by_cases hk : k2 = f
    · subst hk
      simp [List.filter_cons, hg, lookupA]
    · by_cases hkept : (lookupA k2 g).isNone = true <;>
        simp [List.filter_cons, hkept, lookupA, hk, ih]

theorem lookupA_mergeDicts (g p : FieldMap) (f : String) :
    lookupA f (mergeDicts g p) =
      match lookupA f g with
      | some w =>
        match lookupA f p with
        | some v => some v
        | none => some w
      | none => lookupA f p := by
  unfold mergeDicts
  rw [lookupA_append, lookupA_map_override]
  cases hg : lookupA f g with
  | none => simp [lookupA_filter_new g p f hg]
  | some w => cases hp : lookupA f p <;> simp [hp]

/-- C8: the per-row `fields_to_update` table is the dict merge of the global
wildcard rules with the provider-specific rules: with no provider entry it
is exactly the global rule table; with one, a field collision resolves to
the provider rule and a non-overridden field keeps its global rule. -/
theorem claimC8_rule_merge (cfg : ProvidersConfig) (g : FieldMap)
    (provider field : String) (hg : lookupA "*" cfg = some g) :
    (lookupA provider cfg = none → fieldsToUpdate cfg provider = g) ∧
    ∀ pf, lookupA provider cfg = some pf →
      lookupA field (fieldsToUpdate cfg provider) =
        match lookupA field pf with
        | some fn => some fn
        | none => lookupA field g := by
  constructor
  · intro hnone
    simp [fieldsToUpdate, hg, hnone]
  · intro pf hpf
    simp only [fieldsToUpdate, hg, hpf, Option.getD_some]
    rw [lookupA_mergeDicts]
    cases hf : lookupA field g <;> cases hp2 : lookupA field pf <;>
      simp [hf, hp2]

/-- C8 witness: with the image table's configuration (wildcard rules only),
an unlisted provider resolves to exactly the global rules. -/
theorem claimC8_rule_merge_witness :
    lookupA "*" imageProvidersConfig =
      some [("tags", CleanF.tagsF), ("url", CleanF.urlF),
            ("creator_url", CleanF.urlF), ("foreign_landing_url", CleanF.urlF),
            ("thumbnail", CleanF.urlF)] ∧
    ((lookupA "flickr" imageProvidersConfig = none →
      fieldsToUpdate imageProvidersConfig "flickr" =
        [("tags", CleanF.tagsF), ("url", CleanF.urlF),
         ("creator_url", CleanF.urlF), ("foreign_landing_url", CleanF.urlF),
         ("thumbnail", CleanF.urlF)]) ∧
     ∀ pf, lookupA "flickr" imageProvidersConfig = some pf →
       lookupA "url" (fieldsToUpdate imageProvidersConfig "flickr") =
         match lookupA "url" pf with
         | some fn => some fn
         | none =>
           lookupA "url"
             [("tags", CleanF.tagsF), ("url", CleanF.urlF),
              ("creator_url", CleanF.urlF),
              ("foreign_landing_url", CleanF.urlF),
              ("thumbnail", CleanF.urlF)]) :=
  ⟨by decide,
    claimC8_rule_merge imageProvidersConfig _ "flickr" "url" (by decide)⟩

/-! Part: Worker frame conditions (claim C9) -/

/-- Every entry of `cleaned_data` comes from a registered field whose input
value was truthy and whose cleaning function produced a replacement (for
some intermediate state of the worker-local TLS map). -/
theorem cleanFields_mem (net : Net) (row : Row) (ftu : List (String × CleanF)) :
    ∀ (tls : TlsMap) (f : String) (frag : Frag),
      (f, frag) ∈ (cleanFields net row ftu tls).1 →
      truthy (rowGet row f) = true ∧
      ∃ fn tls0, (f, fn) ∈ ftu ∧
        (cleanApply net fn (rowGet row f) tls0 row.provider).1 = some frag := by
  induction ftu with
  | nil =>
    intro tls f frag h
    simp [cleanFields] at h
  | cons hd rest ih =>
    intro tls f frag h
    obtain ⟨g, fn⟩ := hd
    by_cases ht : truthy (rowGet row g) = false
    · rw [cleanFields, if_pos ht] at h
      obtain ⟨htr, fn2, tls0, hmem, happ⟩ := ih tls f frag h
      exact ⟨htr, fn2, tls0, List.mem_cons_of_mem _ hmem, happ⟩
    · rw [cleanFields, if_neg ht] at h
      have htt : truthy (rowGet row g) = true := by
        rcases Bool.eq_false_or_eq_true (truthy (rowGet row g)) with hc | hc
        · exact hc
        · exact absurd hc ht
      rcases hr : (cleanApply net fn (rowGet row g) tls row.provider).1
        with _ | frag0
      · simp only [hr] at h
        obtain ⟨htr, fn2, tls0, hmem, happ⟩ :=
          ih (cleanApply net fn (rowGet row g) tls row.provider).2 f frag h
        exact ⟨htr, fn2, tls0, List.mem_cons_of_mem _ hmem, happ⟩
      · simp only [hr] at h
        rcases List.mem_cons.mp h with heq | htail
        · obtain ⟨rfl, rfl⟩ : f = g ∧ frag = frag0 := by
            constructor <;> injection heq
          exact ⟨htt, fn, tls, List.mem_cons_self _ _, hr⟩
        · obtain ⟨htr, fn2, tls0, hmem, happ⟩ :=
            ih (cleanApply net fn (rowGet row g) tls row.provider).2 f frag
              htail
          exact ⟨htr, fn2, tls0, List.mem_cons_of_mem _ hmem, happ⟩

/-- C9: for every row a worker processes, a field whose input value is falsy
(empty or absent) yields no entry of `cleaned_data`; every entry comes from
a field registered in the merged rule table whose cleaning function returned
a replacement; the row's UPDATE statement sets exactly the `cleaned_data`
entries against the row's identifier (every other field is untouched); and
no UPDATE statement is executed at all when `cleaned_data` is empty. -/
theorem claimC9_worker_frame (net : Net) (cfg : ProvidersConfig)
    (tls : TlsMap) (tbl : String) (row : Row) :
    (∀ f frag,
      (f, frag) ∈
        (cleanFields net row (fieldsToUpdate cfg row.provider) tls).1 →
      truthy (rowGet row f) = true ∧
      ∃ fn tls0, (f, fn) ∈ fieldsToUpdate cfg row.provider ∧
        (cleanApply net fn (rowGet row f) tls0 row.provider).1 = some frag) ∧
    ((rowUpdate net cfg tls tbl row).1 = none ↔
      (cleanFields net row (fieldsToUpdate cfg row.provider) tls).1 = []) ∧
    (∀ stmt, (rowUpdate net cfg tls tbl row).1 = some stmt →
      stmt.table = tbl ∧ stmt.rowId = row.id ∧
      stmt.sets =
        (cleanFields net row (fieldsToUpdate cfg row.provider) tls).1) := by
  refine ⟨fun f frag h => cleanFields_mem net row _ tls f frag h, ?_, ?_⟩
  · constructor
    · intro hnone
      simp only [rowUpdate] at hnone
      split_ifs at hnone with hlen
      exact List.eq_nil_of_length_eq_zero (Nat.eq_zero_of_not_pos hlen)
    · intro hnil
      simp [rowUpdate, hnil]
  · intro stmt hstmt
    simp only [rowUpdate] at hstmt
    split_ifs at hstmt with hlen
    cases hstmt
    exact ⟨rfl, rfl, rfl⟩

/-- C9 witness: a row whose every cleanable value is empty or absent
produces no entry of `cleaned_data` and no UPDATE statement. -/
theorem claimC9_worker_frame_witness :
    (rowUpdate (fun _ => none) imageProvidersConfig [] "temp_import_image"
      ⟨7, "flickr", [("url", .vstr ""), ("tags", .vtags [])]⟩).1 = none :=
  ((claimC9_worker_frame (fun _ => none) imageProvidersConfig []
    "temp_import_image"
    ⟨7, "flickr", [("url", .vstr ""), ("tags", .vtags [])]⟩).2.1).mpr
    (by decide)

end Cleanup
